import Mathlib

/-!
# json2go: synthesis of Go type declarations from a shape tree

A shallow embedding of `ast.go` (`astMakeDecls`, `astTypeFromNode`,
`astStructTypeFromNode`, `astJSONTag`) and theorems about it.

Go strings are embedded as `String`, the text they hold. Go compares strings byte by
byte; `lt_iff_bytesLess` shows that on the UTF-8 bytes of a text this is the order `<`
of `String`.
-/

namespace Json2go

/-! ## The fragment of `go/ast` that the code builds -/

namespace ast

/-- The literal `ast.BasicLit`; the code sets only `Value`. -/
structure BasicLit where
  Value : String
deriving DecidableEq

/-- The struct field `ast.Field` over expressions `E`: `Names` holds the names of
the identifiers (`[]*ast.Ident`), `Type_` the field `Type` and `Tag` the tag literal. -/
structure Field (E : Type) where
  Names : List String
  Type_ : E
  Tag : BasicLit

/-- The type expressions `ast.Expr` that the code constructs.
`Ident name` is `ast.NewIdent(name)`, `InterfaceType opening closing` is
`&ast.InterfaceType{Methods: &ast.FieldList{Opening: opening, Closing: closing}}`
(no methods), and `StructType fields` is
`&ast.StructType{Fields: &ast.FieldList{List: fields}}`. -/
inductive Expr where
  | Ident (Name : String)
  | ArrayType (Elt : Expr)
  | InterfaceType (Opening Closing : Nat)
  | StarExpr (X : Expr)
  | StructType (Fields : List (Field Expr))

/-- The token kinds of `go/token` that the code uses. -/
inductive Token where
  | TYPE
deriving DecidableEq

/-- The type specification `ast.TypeSpec`. -/
structure TypeSpec where
  Name : String
  Type_ : Expr

/-- The declaration `ast.GenDecl`. -/
structure GenDecl where
  Tok : Token
  Specs : List TypeSpec

end ast

/-! ## The shape tree -/

/-- Modelled from the spec: the constants `nodeTypeBool` ... `nodeTypeExternalNode`
that `astTypeFromNode` switches on are declared outside `ast.go`; `nodeTypeOther`
stands for every identifier that no `case` names (the `default` arm). -/
inductive nodeTypeID where
  | nodeTypeBool
  | nodeTypeInt
  | nodeTypeFloat
  | nodeTypeString
  | nodeTypeArrayUnknown
  | nodeTypeArrayBool
  | nodeTypeArrayInt
  | nodeTypeArrayFloat
  | nodeTypeArrayString
  | nodeTypeArrayInterface
  | nodeTypeArrayObject
  | nodeTypeObject
  | nodeTypeExternalNode
  | nodeTypeOther (tag : Nat)
deriving DecidableEq

open nodeTypeID

/-- Modelled from the spec: the type of the field `t` of a node, read as `n.t.id`. -/
structure nodeType where
  id : nodeTypeID
deriving DecidableEq

/-- Modelled from the spec: the shape node, declared outside `ast.go`. The fields are
the ones `ast.go` reads. `children` is the children mapping as the list of its
values in the order in which `range` enumerates them (the code never reads the map
key, only `child.key`). -/
inductive node where
  | mk (key : String) (t : nodeType) (children : List node) (required : Bool)
      (externalTypeID : String)

namespace node

/-- Field `key`. -/
def key : node → String
  | mk k _ _ _ _ => k

/-- Field `t`. -/
def t : node → nodeType
  | mk _ t _ _ _ => t

/-- Field `children`, in enumeration order. -/
def children : node → List node
  | mk _ _ cs _ _ => cs

/-- Field `required`. -/
def required : node → Bool
  | mk _ _ _ r _ => r

/-- Field `externalTypeID`. -/
def externalTypeID : node → String
  | mk _ _ _ _ e => e

end node

/-- The local type `nodeWithName` of `astStructTypeFromNode`. -/
structure nodeWithName where
  key : String
  node : node

/-! ## The code -/

/-- The call `sort.Slice(xs, less)` of the Go library. The library sorts the slice by
`less` and does not promise the order of elements that are equivalent under `less`.
The embedding returns the ascending arrangement computed by insertion, which is the
one the library returns when no two elements are equivalent, as for the children of
a mapping, whose keys are pairwise distinct: every ascending permutation is then this
list (`sortSlice_unique`). With equivalent elements the library may return another
ascending permutation, so every statement about the order of the fields assumes
pairwise distinct keys. -/
def sortSlice {α : Type} (less : α → α → Prop) [DecidableRel less] (xs : List α) : List α :=
  xs.insertionSort (fun a b => ¬ less b a)

/-- The function `astJSONTag`: the writes to the buffer, in order. -/
def astJSONTag (key : String) (omitempty : Bool) : ast.BasicLit :=
  let buf := ""
  let buf := buf ++ "`json:\""
  let buf := buf ++ key
  let buf := if omitempty then buf ++ ",omitempty" else buf
  let buf := buf ++ "\"`"
  { Value := buf }

/-- The slice `sortedChildren` of `astStructTypeFromNode`: one entry per child, then
sorted by `key`. -/
def sortedChildren (n : node) : List nodeWithName :=
  let sortedChildren := n.children.foldl
    (fun acc child => acc ++ [{ key := child.key, node := child }]) []
  sortSlice (fun a b => a.key < b.key) sortedChildren

mutual

/-- The function `astTypeFromNode`, with the identifier derivation `attrName` (declared
outside `ast.go`) as a parameter. -/
def astTypeFromNode (attrName : String → String) (n : node) : ast.Expr :=
  let rp : ast.Expr × Bool :=
    match n.t.id with
    | nodeTypeBool => (ast.Expr.Ident "bool", true)
    | nodeTypeInt => (ast.Expr.Ident "int", true)
    | nodeTypeFloat => (ast.Expr.Ident "float64", true)
    | nodeTypeString => (ast.Expr.Ident "string", true)
    | nodeTypeArrayUnknown => (ast.Expr.ArrayType (ast.Expr.InterfaceType 1 2), false)
    | nodeTypeArrayBool => (ast.Expr.ArrayType (ast.Expr.Ident "bool"), false)
    | nodeTypeArrayInt => (ast.Expr.ArrayType (ast.Expr.Ident "int"), false)
    | nodeTypeArrayFloat => (ast.Expr.ArrayType (ast.Expr.Ident "float64"), false)
    | nodeTypeArrayString => (ast.Expr.ArrayType (ast.Expr.Ident "string"), false)
    | nodeTypeArrayInterface => (ast.Expr.ArrayType (ast.Expr.InterfaceType 1 2), false)
    | nodeTypeArrayObject => (ast.Expr.ArrayType (astStructTypeFromNode attrName n), false)
    | nodeTypeObject => (astStructTypeFromNode attrName n, true)
    | nodeTypeExternalNode =>
      let extName := n.externalTypeID
      let extName := if extName = "" then attrName n.key else extName
      (ast.Expr.Ident extName, true)
    | nodeTypeOther _ => (ast.Expr.InterfaceType 1 2, false)
  let resultType := rp.1
  let pointable := rp.2
  if pointable && !n.required then ast.Expr.StarExpr resultType else resultType
termination_by (sizeOf n, 1)
decreasing_by
  all_goals exact Prod.Lex.right _ (by decide)

/-- The function `astStructTypeFromNode`. The loop over `sortedChildren` carries the
membership proof of each entry, which only the termination argument uses. -/
def astStructTypeFromNode (attrName : String → String) (n : node) : ast.Expr :=
  ast.Expr.StructType
    ((sortedChildren n).attach.foldl
      (fun list child =>
        let childName := attrName child.1.key
        if childName = "" then list
        else list ++ [{ Names := [childName],
                        Type_ := astTypeFromNode attrName child.1.node,
                        Tag := astJSONTag child.1.key (!child.1.node.required) }])
      [])
termination_by (sizeOf n, 0)
decreasing_by
  have happ : ∀ (xs : List node) (acc : List nodeWithName),
      xs.foldl (fun acc child => acc ++ [{ key := child.key, node := child }]) acc
        = acc ++ xs.map (fun c => { key := c.key, node := c }) := by
    intro xs
    induction xs with
    | nil => intro acc; simp
    | cons x xs ih => intro acc; simp [ih]
  have hmem : child.1 ∈ n.children.map (fun c => ({ key := c.key, node := c } : nodeWithName)) := by
    have h : child.1 ∈ List.foldl
        (fun acc child => acc ++ [({ key := child.key, node := child } : nodeWithName)])
        [] n.children := (List.perm_insertionSort _ _).mem_iff.1 child.2
    rw [happ] at h
    simpa using h
  obtain ⟨c, hc, hceq⟩ := List.mem_map.1 hmem
  have hlt : sizeOf child.1.node < sizeOf n := by
    rw [← hceq]
    cases n with
    | mk k t cs r e =>
      have := List.sizeOf_lt_of_mem hc
      simp only [node.children] at this
      simp only [node.mk.sizeOf_spec]
      omega
  exact Prod.Lex.left _ _ hlt

end

/-- The function `astMakeDecls`. -/
def astMakeDecls (attrName : String → String) (rootNodes : List node) : List ast.GenDecl :=
  rootNodes.foldl
    (fun decls rootNode =>
      let name := attrName rootNode.key
      if name = "" then decls
      else decls ++ [{ Tok := ast.Token.TYPE,
                       Specs := [{ Name := name, Type_ := astTypeFromNode attrName rootNode }] }])
    []

/-! ## Vocabulary of the statements -/

/-- The node `n` with its `required` flag set to `r`. -/
def node.setRequired (n : node) (r : Bool) : node :=
  node.mk n.key n.t n.children r n.externalTypeID

/-- The node `n` with its children replaced by `cs`. -/
def node.setChildren (n : node) (cs : List node) : node :=
  node.mk n.key n.t cs n.required n.externalTypeID

/-- The node `n` with its classification set to `id`. -/
def node.setType (n : node) (id : nodeTypeID) : node :=
  node.mk n.key ⟨id⟩ n.children n.required n.externalTypeID

/-- Whether the outermost constructor of a type expression is the pointer `*X`. -/
def ast.Expr.isStarExpr : ast.Expr → Bool
  | ast.Expr.StarExpr _ => true
  | _ => false

/-- Whether the outermost constructor of a type expression is the slice `[]Elt`. -/
def ast.Expr.isArrayType : ast.Expr → Bool
  | ast.Expr.ArrayType _ => true
  | _ => false

/-- The fields of a struct type; no fields for any other type expression. -/
def ast.Expr.structFields : ast.Expr → List (ast.Field ast.Expr)
  | ast.Expr.StructType fields => fields
  | _ => []

/-- The classifications for which `astTypeFromNode` sets `pointable`. -/
def optionalEligible (id : nodeTypeID) : Prop :=
  id = nodeTypeBool ∨ id = nodeTypeInt ∨ id = nodeTypeFloat ∨ id = nodeTypeString ∨
    id = nodeTypeObject ∨ id = nodeTypeExternalNode

instance (id : nodeTypeID) : Decidable (optionalEligible id) := by
  unfold optionalEligible; infer_instance

/-- The array classifications. -/
def arrayClass (id : nodeTypeID) : Prop :=
  id = nodeTypeArrayUnknown ∨ id = nodeTypeArrayBool ∨ id = nodeTypeArrayInt ∨
    id = nodeTypeArrayFloat ∨ id = nodeTypeArrayString ∨ id = nodeTypeArrayInterface ∨
    id = nodeTypeArrayObject

instance (id : nodeTypeID) : Decidable (arrayClass id) := by
  unfold arrayClass; infer_instance

/-- The field that the loop of `astStructTypeFromNode` appends for the child `c`. -/
def fieldOf (attrName : String → String) (c : node) : ast.Field ast.Expr :=
  { Names := [attrName c.key],
    Type_ := astTypeFromNode attrName c,
    Tag := astJSONTag c.key (!c.required) }

/-- The declaration that the loop of `astMakeDecls` appends for the root `r`. -/
def declOf (attrName : String → String) (r : node) : ast.GenDecl :=
  { Tok := ast.Token.TYPE,
    Specs := [{ Name := attrName r.key, Type_ := astTypeFromNode attrName r }] }

/-- The children of `n` sorted by key, without the wrapper `nodeWithName`. -/
def sortedNodes (n : node) : List node :=
  sortSlice (fun a b : node => a.key < b.key) n.children

/-! ### Go's comparison of strings -/

/-- The UTF-8 encoding of the code point `c`, as the list of its bytes. -/
def utf8EncodeChar (c : Nat) : List Nat :=
  if c < 0x80 then [c]
  else if c < 0x800 then [0xC0 + c / 0x40, 0x80 + c % 0x40]
  else if c < 0x10000 then [0xE0 + c / 0x1000, 0x80 + c / 0x40 % 0x40, 0x80 + c % 0x40]
  else [0xF0 + c / 0x40000, 0x80 + c / 0x1000 % 0x40, 0x80 + c / 0x40 % 0x40, 0x80 + c % 0x40]

/-- The bytes of a text in UTF-8. -/
def utf8Encode : List Char → List Nat
  | [] => []
  | c :: cs => utf8EncodeChar c.toNat ++ utf8Encode cs

/-- The bytes of a Go string holding the text `s`. -/
def goBytes (s : String) : List Nat :=
  utf8Encode s.data

/-- Go's `a < b` on strings: lexicographic comparison of the bytes. -/
def bytesLess (a b : String) : Prop :=
  List.Lex (fun x y : Nat => x < y) (goBytes a) (goBytes b)

/-! ### Shape trees up to enumeration order -/

/-- Two shape trees that are equal up to the order in which the children mapping of
each node is enumerated: same key, classification, flag and external type, and the
children of the first are, in some order, the children of the second, related one by
one in the same way. -/
inductive sameShape : node → node → Prop
  | mk (k : String) (t : nodeType) (r : Bool) (e : String) {cs ds' ds : List node} :
      cs.Perm ds' → List.Forall₂ sameShape ds' ds →
      sameShape (node.mk k t cs r e) (node.mk k t ds r e)

/-- The children of every node of the tree form a mapping: at every depth the keys
of the children of a node are pairwise distinct. -/
inductive distinctKeys : node → Prop
  | mk (k : String) (t : nodeType) (r : Bool) (e : String) {cs : List node} :
      (cs.map node.key).Nodup → (∀ c ∈ cs, distinctKeys c) →
      distinctKeys (node.mk k t cs r e)

/-! ### Depth-bounded runs -/

mutual
/-- The depth of a shape tree: the number of nodes on its longest branch. -/
def node.depth : node → Nat
  | node.mk _ _ cs _ _ => node.depthList cs + 1
/-- The largest depth of the trees of a list, zero for the empty list. -/
def node.depthList : List node → Nat
  | [] => 0
  | c :: cs => max c.depth (node.depthList cs)
end

/-- The statement `list = append(list, x)` of a loop in which the list so far `acc` or
the element `x` may be missing. -/
def appendSome {γ : Type} (acc : Option (List γ)) (x : Option γ) : Option (List γ) :=
  match acc, x with
  | some acc, some x => some (acc ++ [x])
  | _, _ => none

/-- The function `astStructTypeFromNode` with its calls of `astTypeFromNode` replaced by
`call`, which may give no result. -/
def astStructTypeFromNodeWith (attrName : String → String) (call : node → Option ast.Expr)
    (n : node) : Option ast.Expr :=
  ((sortedChildren n).foldl
    (fun list child =>
      let childName := attrName child.key
      if childName = "" then list
      else appendSome list ((call child.node).map (fun type =>
        { Names := [childName],
          Type_ := type,
          Tag := astJSONTag child.key (!child.node.required) })))
    (some [])).map ast.Expr.StructType

/-- The function `astTypeFromNode` run with a bound on the depth of the recursion:
`astTypeFromNodeFuel attrName fuel n` allows `fuel` nested calls of `astTypeFromNode`
and gives no result when a call is needed beyond them. -/
def astTypeFromNodeFuel (attrName : String → String) : Nat → node → Option ast.Expr
  | 0, _ => none
  | fuel + 1, n =>
    let rp : Option (ast.Expr × Bool) :=
      match n.t.id with
      | nodeTypeBool => some (ast.Expr.Ident "bool", true)
      | nodeTypeInt => some (ast.Expr.Ident "int", true)
      | nodeTypeFloat => some (ast.Expr.Ident "float64", true)
      | nodeTypeString => some (ast.Expr.Ident "string", true)
      | nodeTypeArrayUnknown => some (ast.Expr.ArrayType (ast.Expr.InterfaceType 1 2), false)
      | nodeTypeArrayBool => some (ast.Expr.ArrayType (ast.Expr.Ident "bool"), false)
      | nodeTypeArrayInt => some (ast.Expr.ArrayType (ast.Expr.Ident "int"), false)
      | nodeTypeArrayFloat => some (ast.Expr.ArrayType (ast.Expr.Ident "float64"), false)
      | nodeTypeArrayString => some (ast.Expr.ArrayType (ast.Expr.Ident "string"), false)
      | nodeTypeArrayInterface => some (ast.Expr.ArrayType (ast.Expr.InterfaceType 1 2), false)
      | nodeTypeArrayObject =>
        (astStructTypeFromNodeWith attrName (astTypeFromNodeFuel attrName fuel) n).map
          (fun s => (ast.Expr.ArrayType s, false))
      | nodeTypeObject =>
        (astStructTypeFromNodeWith attrName (astTypeFromNodeFuel attrName fuel) n).map
          (fun s => (s, true))
      | nodeTypeExternalNode =>
        let extName := n.externalTypeID
        let extName := if extName = "" then attrName n.key else extName
        some (ast.Expr.Ident extName, true)
      | nodeTypeOther _ => some (ast.Expr.InterfaceType 1 2, false)
    rp.map (fun rp =>
      let resultType := rp.1
      let pointable := rp.2
      if pointable && !n.required then ast.Expr.StarExpr resultType else resultType)

/-- The function `astMakeDecls` run with the bound `fuel` on the depth of the recursion
of each call of `astTypeFromNode`. -/
def astMakeDeclsFuel (attrName : String → String) (fuel : Nat) (rootNodes : List node) :
    Option (List ast.GenDecl) :=
  rootNodes.foldl
    (fun decls rootNode =>
      let name := attrName rootNode.key
      if name = "" then decls
      else appendSome decls ((astTypeFromNodeFuel attrName fuel rootNode).map (fun type =>
        { Tok := ast.Token.TYPE, Specs := [{ Name := name, Type_ := type }] })))
    (some [])

/-! ### Identifiers of the output -/

mutual
/-- The identifiers that occur in a type expression: the names of the identifiers and,
at every depth, the names of the struct fields. -/
def ast.Expr.idents : ast.Expr → List String
  | ast.Expr.Ident name => [name]
  | ast.Expr.ArrayType elt => elt.idents
  | ast.Expr.InterfaceType _ _ => []
  | ast.Expr.StarExpr x => x.idents
  | ast.Expr.StructType fields => ast.Expr.identsOfFields fields
/-- The identifiers that occur in a list of fields. -/
def ast.Expr.identsOfFields : List (ast.Field ast.Expr) → List String
  | [] => []
  | ⟨names, type, _⟩ :: fs => names ++ type.idents ++ ast.Expr.identsOfFields fs
end

/-- The identifiers that occur in a list of type specifications. -/
def ast.identsOfSpecs : List ast.TypeSpec → List String
  | [] => []
  | spec :: specs => spec.Name :: spec.Type_.idents ++ ast.identsOfSpecs specs

/-- The identifiers that occur in a list of declarations. -/
def ast.identsOfDecls : List ast.GenDecl → List String
  | [] => []
  | d :: ds => ast.identsOfSpecs d.Specs ++ ast.identsOfDecls ds

/-! ### Examples -/

/-- A small identifier derivation for the examples: capitalises three keys and derives
nothing from any other key. -/
def exampleAttrName (s : String) : String :=
  if s = "person" then "Person" else if s = "age" then "Age"
  else if s = "name" then "Name" else ""

/-- A second identifier derivation for the examples: capitalises the keys `a` and `b`
and derives nothing from any other key. -/
def exampleLetterName (s : String) : String :=
  if s = "a" then "A" else if s = "b" then "B" else ""

/-- The shape tree of the example: the required object `person` whose mapping
enumerates the optional string `name` before the required integer `age`. -/
def examplePerson : node :=
  node.mk "person" ⟨nodeTypeObject⟩
    [node.mk "name" ⟨nodeTypeString⟩ [] false "", node.mk "age" ⟨nodeTypeInt⟩ [] true ""]
    true ""

/-- The example object with a third child whose key `2invalid` has no derived
identifier under `exampleAttrName`, enumerated between the other two. -/
def examplePersonInvalid : node :=
  node.mk "person" ⟨nodeTypeObject⟩
    [node.mk "name" ⟨nodeTypeString⟩ [] false "", node.mk "2invalid" ⟨nodeTypeBool⟩ [] true "",
     node.mk "age" ⟨nodeTypeInt⟩ [] true ""]
    true ""

/-- The example object with its mapping enumerated in the other order: `age` before
`name`. -/
def examplePersonReordered : node :=
  node.mk "person" ⟨nodeTypeObject⟩
    [node.mk "age" ⟨nodeTypeInt⟩ [] true "", node.mk "name" ⟨nodeTypeString⟩ [] false ""]
    true ""

/-- The names that a declaration declares. -/
def ast.GenDecl.names (d : ast.GenDecl) : List String :=
  d.Specs.map (fun spec => spec.Name)

/-! ## Unfolding the code -/

theorem foldl_append_singleton {α β : Type} (f : α → β) (xs : List α) (acc : List β) :
    xs.foldl (fun acc x => acc ++ [f x]) acc = acc ++ xs.map f := by
  induction xs generalizing acc with
  | nil => simp
  | cons x xs ih => simp [ih]

theorem foldl_skip_append {α β : Type} (p : α → Prop) [DecidablePred p] (f : α → β)
    (xs : List α) (acc : List β) :
    xs.foldl (fun acc x => if p x then acc else acc ++ [f x]) acc
      = acc ++ (xs.filter (fun x => ¬ p x)).map f := by
  induction xs generalizing acc with
  | nil => simp
  | cons x xs ih =>
    by_cases h : p x <;> simp [ih, h]

theorem sortedChildren_eq (n : node) :
    sortedChildren n = (sortedNodes n).map (fun c => { key := c.key, node := c }) := by
  unfold sortedChildren sortedNodes sortSlice
  simp only [foldl_append_singleton, List.nil_append]
  symm
  apply List.map_insertionSort
  intro a _ b _
  rfl

/-- The loop of `astStructTypeFromNode` as a filter followed by a map. -/
theorem astStructTypeFromNode_eq (attrName : String → String) (n : node) :
    astStructTypeFromNode attrName n
      = ast.Expr.StructType
          (((sortedNodes n).filter (fun c => ¬ attrName c.key = "")).map (fieldOf attrName)) := by
  rw [astStructTypeFromNode]
  congr 1
  refine (List.foldl_attach (sortedChildren n)
      (fun (list : List (ast.Field ast.Expr)) (child : nodeWithName) =>
        if attrName child.key = "" then list
        else list ++ [{ Names := [attrName child.key],
                        Type_ := astTypeFromNode attrName child.node,
                        Tag := astJSONTag child.key (!child.node.required) }]) []).trans ?_
  rw [sortedChildren_eq, List.foldl_map]
  exact foldl_skip_append (fun c : node => attrName c.key = "") (fieldOf attrName) _ []

/-- The loop of `astMakeDecls` as a filter followed by a map. -/
theorem astMakeDecls_eq (attrName : String → String) (rootNodes : List node) :
    astMakeDecls attrName rootNodes
      = (rootNodes.filter (fun r => ¬ attrName r.key = "")).map (declOf attrName) := by
  unfold astMakeDecls
  exact foldl_skip_append (fun r : node => attrName r.key = "") (declOf attrName) _ []

/-- The struct type of a node does not read the node's own `required`, `key`, `t` or
`externalTypeID`. -/
theorem astStructTypeFromNode_children (attrName : String → String) (n m : node)
    (h : n.children = m.children) :
    astStructTypeFromNode attrName n = astStructTypeFromNode attrName m := by
  rw [astStructTypeFromNode_eq, astStructTypeFromNode_eq, sortedNodes, sortedNodes, h]

/-! ## The order of strings is the byte-wise order -/

theorem lex_nat_cons (a b : Nat) (l₁ l₂ : List Nat) :
    List.Lex (fun x y : Nat => x < y) (a :: l₁) (b :: l₂)
      ↔ a < b ∨ (a = b ∧ List.Lex (fun x y : Nat => x < y) l₁ l₂) := by
  constructor
  · intro h
    cases h with
    | cons h => exact Or.inr ⟨rfl, h⟩
    | rel h => exact Or.inl h
  · rintro (h | ⟨rfl, h⟩)
    · exact List.Lex.rel h
    · exact List.Lex.cons h

theorem lex_append_same {α : Type} (r : α → α → Prop) (p : List α) {s t : List α}
    (h : List.Lex r s t) : List.Lex r (p ++ s) (p ++ t) := by
  induction p with
  | nil => exact h
  | cons a p ih => exact List.Lex.cons ih

theorem lex_append_of_length_eq {α : Type} (r : α → α → Prop) {p q : List α}
    (h : List.Lex r p q) (hl : p.length = q.length) (s t : List α) :
    List.Lex r (p ++ s) (q ++ t) := by
  induction h with
  | nil => simp at hl
  | cons _ ih => exact List.Lex.cons (ih (by simpa using hl))
  | rel h => exact List.Lex.rel h

theorem utf8EncodeChar_lt {c d : Nat} (hd : d < 0x110000) (h : c < d) (s t : List Nat) :
    List.Lex (fun x y : Nat => x < y) (utf8EncodeChar c ++ s) (utf8EncodeChar d ++ t) := by
  unfold utf8EncodeChar
  split_ifs
  all_goals first
    | omega
    | (apply List.Lex.rel; show _ < _; omega)
    | (refine lex_append_of_length_eq _ ?_ ?_ _ _
       · simp only [lex_nat_cons, List.Lex.not_nil_right, and_false, or_false]
         omega
       · rfl)

theorem utf8EncodeChar_ne_nil (c : Nat) : utf8EncodeChar c ≠ [] := by
  unfold utf8EncodeChar
  split_ifs <;> simp

theorem utf8Encode_lex {l₁ l₂ : List Char} (h : List.Lex (fun a b : Char => a < b) l₁ l₂) :
    List.Lex (fun x y : Nat => x < y) (utf8Encode l₁) (utf8Encode l₂) := by
  induction h with
  | @nil c cs =>
    simp only [utf8Encode]
    cases hc : utf8EncodeChar c.toNat with
    | nil => exact absurd hc (utf8EncodeChar_ne_nil _)
    | cons b bs => exact List.Lex.nil
  | cons _ ih => exact lex_append_same _ _ ih
  | @rel a l₁ b l₂ hab =>
    simp only [utf8Encode]
    have hb : b.toNat < 0x110000 := by
      have := b.valid
      simp only [UInt32.isValidChar, Nat.isValidChar] at this
      show b.val.toNat < _
      omega
    exact utf8EncodeChar_lt hb hab _ _

/-- The order of `String` is the byte-wise lexicographic order of the UTF-8 encodings. -/
theorem lt_iff_bytesLess (a b : String) : a < b ↔ bytesLess a b := by
  have key : ∀ l₁ l₂ : List Char, l₁ < l₂ →
      List.Lex (fun x y : Nat => x < y) (utf8Encode l₁) (utf8Encode l₂) :=
    fun l₁ l₂ h => utf8Encode_lex h
  rw [String.lt_iff_toList_lt]
  constructor
  · exact key _ _
  · intro h
    rcases lt_trichotomy a.toList b.toList with hlt | heq | hgt
    · exact hlt
    · exfalso
      have h' : utf8Encode a.data < utf8Encode a.data := by
        have := h
        unfold bytesLess goBytes at this
        rw [show b.data = a.data from heq.symm] at this
        exact this
      exact lt_irrefl _ h'
    · exfalso
      have h1 : utf8Encode b.data < utf8Encode a.data := key _ _ hgt
      have h2 : utf8Encode a.data < utf8Encode b.data := h
      exact lt_asymm h1 h2

/-! ## Facts about `sortSlice` on keys -/

theorem sortSlice_perm {α : Type} (less : α → α → Prop) [DecidableRel less] (xs : List α) :
    (sortSlice less xs).Perm xs :=
  List.perm_insertionSort _ _

theorem sortSlice_sorted {α : Type} (key : α → String) (xs : List α) :
    (sortSlice (fun a b => key a < key b) xs).Pairwise (fun a b => key a ≤ key b) := by
  haveI : IsTotal α (fun a b => ¬ key b < key a) :=
    ⟨fun a b => by simp only [not_lt]; exact le_total _ _⟩
  haveI : IsTrans α (fun a b => ¬ key b < key a) :=
    ⟨fun a b c => by simp only [not_lt]; exact le_trans⟩
  have h := List.sorted_insertionSort (fun a b : α => ¬ key b < key a) xs
  exact List.Pairwise.imp (fun h => not_lt.1 h) h

/-- With pairwise distinct keys the sorted slice is strictly ascending. -/
theorem sortSlice_strict {α : Type} (key : α → String) (xs : List α)
    (h : (xs.map key).Nodup) :
    (sortSlice (fun a b => key a < key b) xs).Pairwise (fun a b => key a < key b) := by
  have hp := sortSlice_perm (fun a b => key a < key b) xs
  have hn : ((sortSlice (fun a b => key a < key b) xs).map key).Nodup :=
    (hp.map key).nodup_iff.2 h
  have hne := List.pairwise_map.1 hn
  exact ((sortSlice_sorted key xs).and hne).imp (fun h => lt_of_le_of_ne h.1 h.2)

/-- With pairwise distinct keys there is only one ascending arrangement: every
ascending permutation of the slice is the result of `sortSlice`, whatever the sorting
algorithm. -/
theorem sortSlice_unique {α : Type} (key : α → String) (xs ys : List α)
    (h : (xs.map key).Nodup) (hp : ys.Perm xs)
    (hs : ys.Pairwise (fun a b => ¬ key b < key a)) :
    ys = sortSlice (fun a b => key a < key b) xs := by
  haveI : IsAntisymm α (fun a b => key a < key b) :=
    ⟨fun a b h1 h2 => absurd h2 (lt_asymm h1)⟩
  have hn : (ys.map key).Nodup := (hp.map key).nodup_iff.2 h
  have hys : ys.Pairwise (fun a b => key a < key b) :=
    (hs.and (List.pairwise_map.1 hn)).imp (fun h => lt_of_le_of_ne (not_lt.1 h.1) h.2)
  exact List.eq_of_perm_of_sorted (hp.trans (sortSlice_perm _ xs).symm) hys
    (sortSlice_strict key xs h)

/-- With pairwise distinct keys, filtering the sorted slice gives the sorted filtered
slice: both are the one ascending arrangement of the elements that are kept. -/
theorem sortSlice_filter_of_nodup {α : Type} (key : α → String) (p : α → Bool) (xs : List α)
    (h : (xs.map key).Nodup) :
    (sortSlice (fun a b => key a < key b) xs).filter p
      = sortSlice (fun a b => key a < key b) (xs.filter p) := by
  have hsub : ((xs.filter p).map key).Sublist (xs.map key) :=
    (List.filter_sublist xs).map key
  refine sortSlice_unique key (xs.filter p) _ (hsub.nodup h)
    ((sortSlice_perm _ xs).filter p) ?_
  exact ((sortSlice_sorted key xs).imp (fun h => not_lt.2 h)).sublist (List.filter_sublist _)

theorem sortedNodes_perm (n : node) : (sortedNodes n).Perm n.children :=
  sortSlice_perm _ _

/-! ## The example, evaluated -/

/-- The sort puts the child `age` of the example before the child `name`. -/
theorem sortedNodes_examplePerson :
    sortedNodes examplePerson
      = [node.mk "age" ⟨nodeTypeInt⟩ [] true "", node.mk "name" ⟨nodeTypeString⟩ [] false ""] := by
  simp [sortedNodes, sortSlice, examplePerson, node.children, node.key,
    show ¬ (['n', 'a', 'm', 'e'] ≤ ['a', 'g', 'e']) by decide]

/-- The struct of the example: the field `Age` of type `int`, then the field `Name` of
type `*string`. -/
theorem astStructTypeFromNode_examplePerson :
    astStructTypeFromNode exampleAttrName examplePerson
      = ast.Expr.StructType
          [{ Names := ["Age"], Type_ := ast.Expr.Ident "int",
             Tag := { Value := "`json:\"age\"`" } },
           { Names := ["Name"], Type_ := ast.Expr.StarExpr (ast.Expr.Ident "string"),
             Tag := { Value := "`json:\"name,omitempty\"`" } }] := by
  rw [astStructTypeFromNode_eq, sortedNodes_examplePerson]
  simp [fieldOf, astTypeFromNode, astJSONTag, exampleAttrName, node.key, node.t, node.required]

/-! ## Optionality -/

/-- The base type of every classification is not a pointer, so a required node is
not synthesised as one. -/
theorem isStarExpr_of_required (attrName : String → String) (n : node)
    (h : n.required = true) :
    (astTypeFromNode attrName n).isStarExpr = false := by
  rw [astTypeFromNode, astStructTypeFromNode_eq]
  cases n with
  | mk k t cs r e =>
    obtain ⟨id⟩ := t
    simp only [node.required] at h
    subst h
    cases id <;> simp [node.t, node.required, ast.Expr.isStarExpr]

/-- C1: for a node of an optional-eligible classification (bool, int, float, string,
object, external node), the type synthesised with `required = false` is the pointer
wrapper applied to the type synthesised with `required = true`, which is itself not a
pointer: the wrapper is added once. -/
theorem astTypeFromNode_optional_wrapping (attrName : String → String) (n : node)
    (h : optionalEligible n.t.id) :
    astTypeFromNode attrName (n.setRequired false)
      = ast.Expr.StarExpr (astTypeFromNode attrName (n.setRequired true)) ∧
    (astTypeFromNode attrName (n.setRequired true)).isStarExpr = false := by
  refine ⟨?_, isStarExpr_of_required attrName _ rfl⟩
  have hs : astStructTypeFromNode attrName (n.setRequired false)
      = astStructTypeFromNode attrName (n.setRequired true) :=
    astStructTypeFromNode_children attrName _ _ rfl
  cases n with
  | mk k t cs r e =>
    obtain ⟨id⟩ := t
    simp only [node.setRequired, node.key, node.t, node.children, node.externalTypeID] at hs ⊢
    simp only [optionalEligible, node.t] at h
    rw [astTypeFromNode, astTypeFromNode]
    rcases h with h | h | h | h | h | h <;> subst h <;>
      simp [node.t, node.required, node.externalTypeID, node.key, hs]

/-- Witness for C1: an optional string child. -/
theorem astTypeFromNode_optional_wrapping_witness :
    optionalEligible (node.mk "name" ⟨nodeTypeString⟩ [] false "").t.id ∧
    astTypeFromNode exampleAttrName ((node.mk "name" ⟨nodeTypeString⟩ [] false "").setRequired false)
      = ast.Expr.StarExpr (astTypeFromNode exampleAttrName
          ((node.mk "name" ⟨nodeTypeString⟩ [] false "").setRequired true)) ∧
    (astTypeFromNode exampleAttrName
      ((node.mk "name" ⟨nodeTypeString⟩ [] false "").setRequired true)).isStarExpr = false :=
  ⟨by decide, astTypeFromNode_optional_wrapping exampleAttrName _ (by decide)⟩

/-- C2: a node with `required = true`, of any classification, is never synthesised
as a pointer: the outermost constructor of its type is not `StarExpr`. -/
theorem astTypeFromNode_required_not_star (attrName : String → String) (n : node)
    (h : n.required = true) :
    (astTypeFromNode attrName n).isStarExpr = false :=
  isStarExpr_of_required attrName n h

/-- Witness for C2: a required object node. -/
theorem astTypeFromNode_required_not_star_witness :
    (node.mk "person" ⟨nodeTypeObject⟩ [] true "").required = true ∧
    (astTypeFromNode exampleAttrName (node.mk "person" ⟨nodeTypeObject⟩ [] true "")).isStarExpr
      = false :=
  ⟨rfl, astTypeFromNode_required_not_star exampleAttrName _ rfl⟩

/-- C3: a node of an array classification is synthesised as a slice type at the top
level, never as a pointer, and the result does not depend on `required`. -/
theorem astTypeFromNode_array (attrName : String → String) (n : node)
    (h : arrayClass n.t.id) :
    (astTypeFromNode attrName n).isArrayType = true ∧
    (astTypeFromNode attrName n).isStarExpr = false ∧
    ∀ r : Bool, astTypeFromNode attrName (n.setRequired r) = astTypeFromNode attrName n := by
  have hs : ∀ r, astStructTypeFromNode attrName (n.setRequired r)
      = astStructTypeFromNode attrName n :=
    fun r => astStructTypeFromNode_children attrName _ _ (by cases n; rfl)
  cases n with
  | mk k t cs r e =>
    obtain ⟨id⟩ := t
    simp only [arrayClass, node.t] at h
    simp only [node.setRequired, node.key, node.t, node.children, node.externalTypeID] at hs ⊢
    refine ⟨?_, ?_, fun r' => ?_⟩
    · rw [astTypeFromNode]
      rcases h with h | h | h | h | h | h | h <;> subst h <;>
        simp [node.t, ast.Expr.isArrayType]
    · rw [astTypeFromNode]
      rcases h with h | h | h | h | h | h | h <;> subst h <;>
        simp [node.t, ast.Expr.isStarExpr]
    · rw [astTypeFromNode, astTypeFromNode]
      rcases h with h | h | h | h | h | h | h <;> subst h <;>
        simp [node.t, hs]

/-- Witness for C3: an optional array of objects. -/
theorem astTypeFromNode_array_witness :
    arrayClass (node.mk "xs" ⟨nodeTypeArrayObject⟩ [] false "").t.id ∧
    (astTypeFromNode exampleAttrName (node.mk "xs" ⟨nodeTypeArrayObject⟩ [] false "")).isArrayType
      = true ∧
    (astTypeFromNode exampleAttrName (node.mk "xs" ⟨nodeTypeArrayObject⟩ [] false "")).isStarExpr
      = false ∧
    ∀ r : Bool,
      astTypeFromNode exampleAttrName ((node.mk "xs" ⟨nodeTypeArrayObject⟩ [] false "").setRequired r)
        = astTypeFromNode exampleAttrName (node.mk "xs" ⟨nodeTypeArrayObject⟩ [] false "") :=
  ⟨by decide, astTypeFromNode_array exampleAttrName _ (by decide)⟩

/-! ## Struct fields -/

/-- C4: when the child keys are pairwise distinct, the fields of the struct are the
fields of a selection `kept` of the children, each child taken at most once, whose
keys are strictly ascending in field order, in the order of `String` and, which is the
same, in the byte-wise lexicographic order of Go; every field has exactly one name and
it is not empty. -/
theorem astStructTypeFromNode_field_order (attrName : String → String) (n : node)
    (h : (n.children.map node.key).Nodup) :
    ∃ kept : List node,
      kept.Subperm n.children ∧
      (kept.map node.key).Pairwise (fun a b => a < b) ∧
      (kept.map node.key).Pairwise bytesLess ∧
      astStructTypeFromNode attrName n = ast.Expr.StructType (kept.map (fieldOf attrName)) ∧
      ∀ f ∈ kept.map (fieldOf attrName), f.Names.length = 1 ∧ "" ∉ f.Names := by
  have hlt : (((sortedNodes n).filter (fun c => ¬ attrName c.key = "")).map node.key).Pairwise
      (fun a b => a < b) := by
    rw [List.pairwise_map]
    exact (sortSlice_strict node.key n.children h).sublist (List.filter_sublist _)
  refine ⟨(sortedNodes n).filter (fun c => ¬ attrName c.key = ""), ?_, hlt,
    hlt.imp (fun h => (lt_iff_bytesLess _ _).1 h), ?_, ?_⟩
  · exact (List.filter_sublist _).subperm.trans (sortedNodes_perm n).subperm
  · exact astStructTypeFromNode_eq attrName n
  · intro f hf
    obtain ⟨c, hc, rfl⟩ := List.mem_map.1 hf
    have hne : ¬ attrName c.key = "" := by simpa using (List.mem_filter.1 hc).2
    refine ⟨rfl, ?_⟩
    simp only [fieldOf, List.mem_singleton]
    exact fun h => hne h.symm

/-- Witness for C4: the example object, whose mapping enumerates `name` before `age`. -/
theorem astStructTypeFromNode_field_order_witness :
    (examplePerson.children.map node.key).Nodup ∧
    ∃ kept : List node,
      kept.Subperm examplePerson.children ∧
      (kept.map node.key).Pairwise (fun a b => a < b) ∧
      (kept.map node.key).Pairwise bytesLess ∧
      astStructTypeFromNode exampleAttrName examplePerson
        = ast.Expr.StructType (kept.map (fieldOf exampleAttrName)) ∧
      ∀ f ∈ kept.map (fieldOf exampleAttrName), f.Names.length = 1 ∧ "" ∉ f.Names :=
  ⟨by decide, astStructTypeFromNode_field_order exampleAttrName examplePerson (by decide)⟩

/-- C6: when the child keys are pairwise distinct, the struct of a node is the struct
of the node without the children whose derived identifier is empty: such a child
contributes no field, and the fields of the other children keep their contents and
their order. -/
theorem astStructTypeFromNode_drop (attrName : String → String) (n : node)
    (h : (n.children.map node.key).Nodup) :
    astStructTypeFromNode attrName n
      = astStructTypeFromNode attrName
          (n.setChildren (n.children.filter (fun c => ¬ attrName c.key = ""))) := by
  rw [astStructTypeFromNode_eq, astStructTypeFromNode_eq]
  congr 2
  have hc : (n.setChildren (n.children.filter (fun c => ¬ attrName c.key = ""))).children
      = n.children.filter (fun c => ¬ attrName c.key = "") := rfl
  rw [sortedNodes, sortedNodes, hc, ← sortSlice_filter_of_nodup node.key _ _ h,
    List.filter_filter]
  simp

/-- Witness for C6: the example object with a third child, of the key `2invalid`, from
which the example derivation derives nothing. -/
theorem astStructTypeFromNode_drop_witness :
    (examplePersonInvalid.children.map node.key).Nodup ∧
    astStructTypeFromNode exampleAttrName examplePersonInvalid
      = astStructTypeFromNode exampleAttrName
          (examplePersonInvalid.setChildren
            (examplePersonInvalid.children.filter (fun c => ¬ exampleAttrName c.key = ""))) :=
  ⟨by decide, astStructTypeFromNode_drop exampleAttrName examplePersonInvalid (by decide)⟩

/-- C7: when the child keys are pairwise distinct, the fields of the struct come one
by one from an arrangement `kept`, without repetition, of exactly the children whose
derived identifier is not empty; the field of a child `c` has the name
`attrName c.key`, the type `astTypeFromNode c` and the tag
`astJSONTag c.key (!c.required)`; there are as many fields as such children. -/
theorem astStructTypeFromNode_field_contents (attrName : String → String) (n : node)
    (h : (n.children.map node.key).Nodup) :
    ∃ kept : List node,
      kept.Perm (n.children.filter (fun c => ¬ attrName c.key = "")) ∧
      kept.Nodup ∧
      astStructTypeFromNode attrName n
        = ast.Expr.StructType (kept.map (fun c =>
            { Names := [attrName c.key],
              Type_ := astTypeFromNode attrName c,
              Tag := astJSONTag c.key (!c.required) })) ∧
      (astStructTypeFromNode attrName n).structFields.length
        = n.children.countP (fun c => ¬ attrName c.key = "") := by
  have hperm : ((sortedNodes n).filter (fun c => ¬ attrName c.key = "")).Perm
      (n.children.filter (fun c => ¬ attrName c.key = "")) :=
    (sortedNodes_perm n).filter _
  refine ⟨(sortedNodes n).filter (fun c => ¬ attrName c.key = ""), hperm, ?_, ?_, ?_⟩
  · exact hperm.nodup_iff.2 ((List.Nodup.of_map node.key h).filter _)
  · exact astStructTypeFromNode_eq attrName n
  · rw [astStructTypeFromNode_eq, ast.Expr.structFields, List.length_map, hperm.length_eq,
      List.countP_eq_length_filter]

/-- Witness for C7: the example object. -/
theorem astStructTypeFromNode_field_contents_witness :
    (examplePerson.children.map node.key).Nodup ∧
    ∃ kept : List node,
      kept.Perm (examplePerson.children.filter (fun c => ¬ exampleAttrName c.key = "")) ∧
      kept.Nodup ∧
      astStructTypeFromNode exampleAttrName examplePerson
        = ast.Expr.StructType (kept.map (fun c =>
            { Names := [exampleAttrName c.key],
              Type_ := astTypeFromNode exampleAttrName c,
              Tag := astJSONTag c.key (!c.required) })) ∧
      (astStructTypeFromNode exampleAttrName examplePerson).structFields.length
        = examplePerson.children.countP (fun c => ¬ exampleAttrName c.key = "") :=
  ⟨by decide, astStructTypeFromNode_field_contents exampleAttrName examplePerson (by decide)⟩

/-! ## Determinism -/
theorem sameShape.key_eq {n m : node} (h : sameShape n m) : n.key = m.key := by
  cases h; rfl

theorem sameShape.required_eq {n m : node} (h : sameShape n m) : n.required = m.required := by
  cases h; rfl

theorem orderedInsert_forall₂ {α : Type} (R : α → α → Prop) (key : α → String)
    (hR : ∀ a b, R a b → key a = key b) {a b : α} (hab : R a b) {l₁ l₂ : List α}
    (h : List.Forall₂ R l₁ l₂) :
    List.Forall₂ R (l₁.orderedInsert (fun x y => ¬ key y < key x) a)
      (l₂.orderedInsert (fun x y => ¬ key y < key x) b) := by
  induction h with
  | nil => exact List.Forall₂.cons hab List.Forall₂.nil
  | @cons c d l₁ l₂ hcd hl ih =>
    simp only [List.orderedInsert, ← hR a b hab, ← hR c d hcd]
    by_cases hlt : key c < key a
    · simp only [hlt, not_true_eq_false, if_false]
      exact List.Forall₂.cons hcd ih
    · simp only [hlt, not_false_eq_true, if_true]
      exact List.Forall₂.cons hab (List.Forall₂.cons hcd hl)

theorem sortSlice_forall₂ {α : Type} (R : α → α → Prop) (key : α → String)
    (hR : ∀ a b, R a b → key a = key b) {l₁ l₂ : List α}
    (h : List.Forall₂ R l₁ l₂) :
    List.Forall₂ R (sortSlice (fun a b => key a < key b) l₁)
      (sortSlice (fun a b => key a < key b) l₂) := by
  unfold sortSlice
  induction h with
  | nil => exact List.Forall₂.nil
  | cons hab _ ih => exact orderedInsert_forall₂ R key hR hab ih

theorem filter_forall₂ {α : Type} (R : α → α → Prop) (p : α → Bool)
    (hR : ∀ a b, R a b → p a = p b) {l₁ l₂ : List α}
    (h : List.Forall₂ R l₁ l₂) :
    List.Forall₂ R (l₁.filter p) (l₂.filter p) := by
  induction h with
  | nil => exact List.Forall₂.nil
  | @cons a b l₁ l₂ hab _ ih =>
    by_cases hp : p a
    · rw [List.filter_cons_of_pos hp, List.filter_cons_of_pos ((hR a b hab) ▸ hp)]
      exact List.Forall₂.cons hab ih
    · rw [List.filter_cons_of_neg hp, List.filter_cons_of_neg ((hR a b hab) ▸ hp)]
      exact ih

theorem map_eq_of_forall₂ {α β : Type} (R : α → α → Prop) (f : α → β) {l₁ l₂ : List α}
    (h : List.Forall₂ R l₁ l₂) (hf : ∀ a ∈ l₁, ∀ b, R a b → f a = f b) :
    l₁.map f = l₂.map f := by
  induction h with
  | nil => rfl
  | @cons a b l₁ l₂ hab _ ih =>
    rw [List.map_cons, List.map_cons, hf a (List.mem_cons_self _ _) b hab,
      ih (fun a ha b hab => hf a (List.mem_cons_of_mem _ ha) b hab)]

/-- Determinism, by induction on a bound on the size of the first tree. -/
theorem deterministic_aux (attrName : String → String) :
    ∀ (N : Nat) (n m : node), sizeOf n < N → sameShape n m → distinctKeys n →
      astTypeFromNode attrName n = astTypeFromNode attrName m ∧
      astStructTypeFromNode attrName n = astStructTypeFromNode attrName m := by
  intro N
  induction N with
  | zero => intro n m h; omega
  | succ N ih =>
    intro n m hsz h hn
    cases h with
    | @mk k t r e cs ds' ds hperm hall =>
      cases hn with
      | mk _ _ _ _ hnd hch =>
        have hnd' : (ds'.map node.key).Nodup := (hperm.map node.key).nodup_iff.1 hnd
        have h1 : sortSlice (fun a b : node => a.key < b.key) cs
            = sortSlice (fun a b : node => a.key < b.key) ds' :=
          sortSlice_unique node.key ds' _ hnd' ((sortSlice_perm _ cs).trans hperm)
            ((sortSlice_sorted node.key cs).imp (fun h => not_lt.2 h))
        have h2 := sortSlice_forall₂ sameShape node.key (fun a b h => h.key_eq) hall
        have h3 := filter_forall₂ sameShape (fun c => decide (¬ attrName c.key = ""))
          (fun a b h => by simp only [h.key_eq]) h2
        have hstruct : astStructTypeFromNode attrName (node.mk k t cs r e)
            = astStructTypeFromNode attrName (node.mk k t ds r e) := by
          rw [astStructTypeFromNode_eq, astStructTypeFromNode_eq]
          congr 1
          simp only [sortedNodes, node.children]
          rw [h1]
          refine map_eq_of_forall₂ sameShape _ h3 ?_
          intro c hc d hcd
          have hmem : c ∈ cs :=
            hperm.mem_iff.2 ((sortSlice_perm _ ds').mem_iff.1 (List.mem_filter.1 hc).1)
          have hlt : sizeOf c < N := by
            have := List.sizeOf_lt_of_mem hmem
            simp only [node.mk.sizeOf_spec] at hsz
            omega
          simp only [fieldOf, hcd.key_eq, hcd.required_eq, (ih c d hlt hcd (hch c hmem)).1]
        refine ⟨?_, hstruct⟩
        rw [astTypeFromNode, astTypeFromNode]
        simp only [node.t, node.required, node.externalTypeID, node.key, hstruct]

/-- C5: two shape trees that are equal up to the enumeration order of the children
mappings, with pairwise distinct child keys at every depth, are synthesised to the same
type expression, by `astTypeFromNode` and by `astStructTypeFromNode`. -/
theorem synthesis_independent_of_enumeration (attrName : String → String) (n m : node)
    (h : sameShape n m) (hn : distinctKeys n) :
    astTypeFromNode attrName n = astTypeFromNode attrName m ∧
    astStructTypeFromNode attrName n = astStructTypeFromNode attrName m :=
  deterministic_aux attrName (sizeOf n + 1) n m (Nat.lt_succ_self _) h hn

/-- Witness for C5: the example object enumerated as `name, age` and as `age, name`. -/
theorem synthesis_independent_of_enumeration_witness :
    sameShape examplePerson examplePersonReordered ∧ distinctKeys examplePerson ∧
    astTypeFromNode exampleAttrName examplePerson
      = astTypeFromNode exampleAttrName examplePersonReordered ∧
    astStructTypeFromNode exampleAttrName examplePerson
      = astStructTypeFromNode exampleAttrName examplePersonReordered :=
  have hs : sameShape examplePerson examplePersonReordered :=
    sameShape.mk _ _ _ _ (List.Perm.swap _ _ [])
      (List.Forall₂.cons (sameShape.mk _ _ _ _ List.Perm.nil List.Forall₂.nil)
        (List.Forall₂.cons (sameShape.mk _ _ _ _ List.Perm.nil List.Forall₂.nil)
          List.Forall₂.nil))
  have hd : distinctKeys examplePerson :=
    distinctKeys.mk _ _ _ _ (by decide) (by
      intro c hc
      simp only [List.mem_cons, List.mem_singleton, List.not_mem_nil, or_false] at hc
      rcases hc with rfl | rfl <;>
        exact distinctKeys.mk _ _ _ _ List.nodup_nil (fun _ h => absurd h (List.not_mem_nil _)))
  ⟨hs, hd, synthesis_independent_of_enumeration exampleAttrName _ _ hs hd⟩

/-! ## Root declarations -/

/-- C8: the declarations are, in the order of the roots and without sorting, the
declarations `(attrName r.key, astTypeFromNode r)` of exactly the roots whose derived
identifier is not empty; the declared names are the non-empty derived identifiers of
the roots, in order. -/
theorem astMakeDecls_root_order (attrName : String → String) (rootNodes : List node) :
    astMakeDecls attrName rootNodes
      = (rootNodes.filter (fun r => ¬ attrName r.key = "")).map (fun r =>
          { Tok := ast.Token.TYPE,
            Specs := [{ Name := attrName r.key, Type_ := astTypeFromNode attrName r }] }) ∧
    (astMakeDecls attrName rootNodes).map ast.GenDecl.names
      = ((rootNodes.map (fun r => attrName r.key)).filter (fun s => ¬ s = "")).map
          (fun s => [s]) := by
  refine ⟨astMakeDecls_eq attrName rootNodes, ?_⟩
  rw [astMakeDecls_eq, List.map_map, List.filter_map, List.map_map]
  rfl

/-- C9: `astMakeDecls` distributes over concatenation of root lists, and a root whose
derived identifier is empty, placed between two lists of roots, leaves the
declarations of the other roots and their order as they are. -/
theorem astMakeDecls_drop (attrName : String → String) (xs ys : List node) :
    astMakeDecls attrName (xs ++ ys) = astMakeDecls attrName xs ++ astMakeDecls attrName ys ∧
    ∀ r : node, attrName r.key = "" →
      astMakeDecls attrName (xs ++ [r] ++ ys)
        = astMakeDecls attrName xs ++ astMakeDecls attrName ys := by
  refine ⟨?_, fun r hr => ?_⟩
  · simp only [astMakeDecls_eq, List.filter_append, List.map_append]
  · simp only [astMakeDecls_eq, List.filter_append, List.map_append]
    simp [hr]

/-- Witness for C9: a root with the key `2invalid`, from which the example derivation
derives nothing, between two roots. -/
theorem astMakeDecls_drop_witness :
    exampleAttrName (node.mk "2invalid" ⟨nodeTypeString⟩ [] true "").key = "" ∧
    astMakeDecls exampleAttrName
        ([examplePerson] ++ [node.mk "2invalid" ⟨nodeTypeString⟩ [] true ""]
          ++ [examplePersonReordered])
      = astMakeDecls exampleAttrName [examplePerson]
          ++ astMakeDecls exampleAttrName [examplePersonReordered] :=
  ⟨by decide,
    (astMakeDecls_drop exampleAttrName [examplePerson] [examplePersonReordered]).2 _
      (by decide)⟩

/-! ## Tags -/

/-- C10: the tag of a key `k` is the literal made of a backtick, `json:`, a double
quote, `k` unchanged, the directive `,omitempty` exactly when `omitempty` is set, a
double quote and a backtick; so it is one of the two literals and nothing else, and
its characters are those of the key between the fixed opening and closing. -/
theorem astJSONTag_format (k : String) :
    astJSONTag k false = { Value := "`json:\"" ++ k ++ "\"`" } ∧
    astJSONTag k true = { Value := "`json:\"" ++ k ++ ",omitempty\"`" } ∧
    (∀ o : Bool, astJSONTag k o = { Value := "`json:\"" ++ k ++ "\"`" } ∨
      astJSONTag k o = { Value := "`json:\"" ++ k ++ ",omitempty\"`" }) ∧
    ∀ o : Bool, (astJSONTag k o).Value.data
      = "`json:\"".data ++ k.data ++ (if o then ",omitempty".data else []) ++ "\"`".data := by
  have h1 : astJSONTag k false = { Value := "`json:\"" ++ k ++ "\"`" } := by
    simp [astJSONTag]
  have h2 : astJSONTag k true = { Value := "`json:\"" ++ k ++ ",omitempty\"`" } := by
    simp [astJSONTag, String.append_assoc]
  refine ⟨h1, h2, fun o => ?_, fun o => ?_⟩
  · cases o
    · exact Or.inl h1
    · exact Or.inr h2
  · cases o
    · rw [h1]; simp
    · rw [h2]; simp

/-- The characters of a tag: the opening, the key, the directive when `omitempty` is
set, the closing. -/
theorem astJSONTag_data (k : String) (o : Bool) :
    (astJSONTag k o).Value.data
      = "`json:\"".data ++ ((k.data ++ if o then ",omitempty".data else []) ++ "\"`".data) := by
  cases o <;> simp [astJSONTag]

/-- Two tags are equal exactly when the key followed by the directive is the same. -/
theorem astJSONTag_eq_iff (k₁ k₂ : String) (o₁ o₂ : Bool) :
    astJSONTag k₁ o₁ = astJSONTag k₂ o₂
      ↔ k₁.data ++ (if o₁ then ",omitempty".data else [])
          = k₂.data ++ (if o₂ then ",omitempty".data else []) := by
  constructor
  · intro h
    have hd := congrArg (fun t : ast.BasicLit => t.Value.data) h
    simp only [astJSONTag_data] at hd
    exact List.append_cancel_right (List.append_cancel_left hd)
  · intro h
    have hv : (astJSONTag k₁ o₁).Value = (astJSONTag k₂ o₂).Value := by
      apply String.ext
      rw [astJSONTag_data, astJSONTag_data, h]
    cases h₁ : astJSONTag k₁ o₁
    cases h₂ : astJSONTag k₂ o₂
    rw [h₁, h₂] at hv
    simpa using hv

/-- C11, the claim as stated fails: the key `a,omitempty` without the directive and the
key `a` with the directive have the same tag. -/
theorem astJSONTag_not_injective :
    astJSONTag "a,omitempty" false = astJSONTag "a" true ∧
    ¬ ("a,omitempty" = "a" ∧ false = true) :=
  ⟨by decide, by decide⟩

/-- C11, amended: the key is embedded without escaping, and two tags are equal exactly
when the keys and the flags are equal or when one tag has the directive and the key of
the other, which has no directive, is its key followed by `,omitempty`. So the key is
recoverable from the tag when the flag is known, and the key and the flag are
recoverable among the keys that do not end in `,omitempty`. -/
theorem astJSONTag_injective_up_to_directive (k₁ k₂ : String) (o₁ o₂ : Bool) :
    astJSONTag k₁ o₁ = astJSONTag k₂ o₂
      ↔ (k₁ = k₂ ∧ o₁ = o₂) ∨
        (o₁ = false ∧ o₂ = true ∧ k₁ = k₂ ++ ",omitempty") ∨
        (o₁ = true ∧ o₂ = false ∧ k₂ = k₁ ++ ",omitempty") := by
  rw [astJSONTag_eq_iff]
  cases o₁ <;> cases o₂ <;> simp only [Bool.false_eq_true, if_false, if_true, List.append_nil]
  · constructor
    · exact fun h => Or.inl ⟨String.ext h, trivial⟩
    · rintro (⟨h, _⟩ | ⟨_, h, _⟩ | ⟨h, _⟩)
      · rw [h]
      · cases h
      · cases h
  · constructor
    · exact fun h => Or.inr (Or.inl ⟨trivial, trivial, String.ext (by rw [String.data_append]; exact h)⟩)
    · rintro (⟨_, h⟩ | ⟨_, _, h⟩ | ⟨h, _⟩)
      · cases h
      · rw [h, String.data_append]
      · cases h
  · constructor
    · exact fun h =>
        Or.inr (Or.inr ⟨trivial, trivial, String.ext (by rw [String.data_append]; exact h.symm)⟩)
    · rintro (⟨_, h⟩ | ⟨h, _⟩ | ⟨_, _, h⟩)
      · cases h
      · cases h
      · rw [h, String.data_append]
  · constructor
    · exact fun h => Or.inl ⟨String.ext (List.append_cancel_right h), trivial⟩
    · rintro (⟨h, _⟩ | ⟨h, _⟩ | ⟨_, h, _⟩)
      · rw [h]
      · cases h
      · cases h

/-! ## The base types -/

/-- C12, the claim as stated fails: a required integer node is not synthesised as
`int64`. -/
theorem astTypeFromNode_int_not_int64 :
    astTypeFromNode exampleAttrName (node.mk "age" ⟨nodeTypeInt⟩ [] true "")
      ≠ ast.Expr.Ident "int64" := by
  rw [astTypeFromNode]
  simp [node.t, node.required]

/-- C12, amended: a required node classified integer is synthesised as the Go type
named `int`, the integer type of the width of the platform. -/
theorem astTypeFromNode_int (attrName : String → String) (n : node)
    (ht : n.t.id = nodeTypeInt) (hr : n.required = true) :
    astTypeFromNode attrName n = ast.Expr.Ident "int" := by
  rw [astTypeFromNode]
  simp [ht, hr]

/-- Witness for C12: the child `age` of the example. -/
theorem astTypeFromNode_int_witness :
    (node.mk "age" ⟨nodeTypeInt⟩ [] true "").t.id = nodeTypeInt ∧
    (node.mk "age" ⟨nodeTypeInt⟩ [] true "").required = true ∧
    astTypeFromNode exampleAttrName (node.mk "age" ⟨nodeTypeInt⟩ [] true "")
      = ast.Expr.Ident "int" :=
  ⟨rfl, rfl, astTypeFromNode_int exampleAttrName _ rfl rfl⟩

/-- C13: a required node is synthesised as `bool` when classified boolean, as
`float64` when classified float and as `string` when classified string, whatever its
key, its children and its external type. -/
theorem astTypeFromNode_primitives (attrName : String → String) (k : String)
    (cs : List node) (e : String) :
    astTypeFromNode attrName (node.mk k ⟨nodeTypeBool⟩ cs true e) = ast.Expr.Ident "bool" ∧
    astTypeFromNode attrName (node.mk k ⟨nodeTypeFloat⟩ cs true e) = ast.Expr.Ident "float64" ∧
    astTypeFromNode attrName (node.mk k ⟨nodeTypeString⟩ cs true e) = ast.Expr.Ident "string" := by
  refine ⟨?_, ?_, ?_⟩ <;> rw [astTypeFromNode] <;> simp [node.t, node.required]

/-! ## Slices -/

/-- C14: a node classified array of boolean, integer, float or string is synthesised
as the slice of the type of the same node classified boolean, integer, float or string
and required; a node classified array of unknown or array of mixed is synthesised as
the slice of the empty interface, which is what every classification outside the
recognised ones is synthesised as, so that both give the same type. -/
theorem astTypeFromNode_array_elements (attrName : String → String) (n : node) (tag : Nat) :
    astTypeFromNode attrName (n.setType nodeTypeArrayBool)
      = ast.Expr.ArrayType
          (astTypeFromNode attrName ((n.setType nodeTypeBool).setRequired true)) ∧
    astTypeFromNode attrName (n.setType nodeTypeArrayInt)
      = ast.Expr.ArrayType
          (astTypeFromNode attrName ((n.setType nodeTypeInt).setRequired true)) ∧
    astTypeFromNode attrName (n.setType nodeTypeArrayFloat)
      = ast.Expr.ArrayType
          (astTypeFromNode attrName ((n.setType nodeTypeFloat).setRequired true)) ∧
    astTypeFromNode attrName (n.setType nodeTypeArrayString)
      = ast.Expr.ArrayType
          (astTypeFromNode attrName ((n.setType nodeTypeString).setRequired true)) ∧
    astTypeFromNode attrName (n.setType nodeTypeArrayUnknown)
      = ast.Expr.ArrayType (astTypeFromNode attrName (n.setType (nodeTypeOther tag))) ∧
    astTypeFromNode attrName (n.setType nodeTypeArrayInterface)
      = ast.Expr.ArrayType (astTypeFromNode attrName (n.setType (nodeTypeOther tag))) ∧
    astTypeFromNode attrName (n.setType (nodeTypeOther tag)) = ast.Expr.InterfaceType 1 2 ∧
    astTypeFromNode attrName (n.setType nodeTypeArrayUnknown)
      = astTypeFromNode attrName (n.setType nodeTypeArrayInterface) := by
  refine ⟨?_, ?_, ?_, ?_, ?_, ?_, ?_, ?_⟩ <;>
    simp [astTypeFromNode, node.setType, node.setRequired, node.t, node.required]

/-- C15: a node classified array of object is synthesised as the slice of the struct
of the node itself, which is the type of the same node classified object and required;
the struct is not a pointer, whatever the flag `required` of the node; and two
children with the keys `b` and `a`, enumerated in this order, give the field of `a`
and then the field of `b`. -/
theorem astTypeFromNode_array_object (attrName : String → String) (n : node) :
    astTypeFromNode attrName (n.setType nodeTypeArrayObject)
      = ast.Expr.ArrayType (astStructTypeFromNode attrName n) ∧
    astTypeFromNode attrName (n.setType nodeTypeArrayObject)
      = ast.Expr.ArrayType
          (astTypeFromNode attrName ((n.setType nodeTypeObject).setRequired true)) ∧
    (astStructTypeFromNode attrName n).isStarExpr = false ∧
    (astTypeFromNode attrName (n.setType nodeTypeArrayObject)).isStarExpr = false ∧
    ∀ ca cb : node, ca.key = "a" → cb.key = "b" → attrName "a" ≠ "" → attrName "b" ≠ "" →
      astTypeFromNode attrName ((n.setChildren [cb, ca]).setType nodeTypeArrayObject)
        = ast.Expr.ArrayType (ast.Expr.StructType
            [{ Names := [attrName "a"], Type_ := astTypeFromNode attrName ca,
               Tag := astJSONTag "a" (!ca.required) },
             { Names := [attrName "b"], Type_ := astTypeFromNode attrName cb,
               Tag := astJSONTag "b" (!cb.required) }]) := by
  have hs : astStructTypeFromNode attrName (n.setType nodeTypeArrayObject)
      = astStructTypeFromNode attrName n :=
    astStructTypeFromNode_children attrName _ _ (by cases n; rfl)
  have ho : astStructTypeFromNode attrName ((n.setType nodeTypeObject).setRequired true)
      = astStructTypeFromNode attrName n :=
    astStructTypeFromNode_children attrName _ _ (by cases n; rfl)
  have h1 : astTypeFromNode attrName (n.setType nodeTypeArrayObject)
      = ast.Expr.ArrayType (astStructTypeFromNode attrName n) := by
    rw [astTypeFromNode, hs]
    simp [node.setType, node.t]
  refine ⟨h1, ?_, ?_, ?_, ?_⟩
  · rw [h1]
    conv_rhs => rw [astTypeFromNode, ho]
    simp [node.setType, node.setRequired, node.t, node.required]
  · rw [astStructTypeFromNode_eq]
    rfl
  · rw [h1]
    rfl
  · intro ca cb ha hb hna hnb
    have hs' : astStructTypeFromNode attrName ((n.setChildren [cb, ca]).setType nodeTypeArrayObject)
        = ast.Expr.StructType [fieldOf attrName ca, fieldOf attrName cb] := by
      rw [astStructTypeFromNode_eq]
      have hsort : sortedNodes ((n.setChildren [cb, ca]).setType nodeTypeArrayObject)
          = [ca, cb] := by
        simp [sortedNodes, sortSlice, node.setChildren, node.setType, node.children, ha, hb,
          show ¬ (['b'] ≤ ['a']) by decide]
      rw [hsort]
      simp [ha, hb, hna, hnb]
    rw [astTypeFromNode, hs']
    simp [node.setType, node.setChildren, node.t, fieldOf, ha, hb]

/-- Witness for C15: the children `b`, a required boolean, and `a`, an optional string,
under a derivation that capitalises the two keys. -/
theorem astTypeFromNode_array_object_witness :
    (node.mk "a" ⟨nodeTypeString⟩ [] false "").key = "a" ∧
    (node.mk "b" ⟨nodeTypeBool⟩ [] true "").key = "b" ∧
    exampleLetterName "a" ≠ "" ∧ exampleLetterName "b" ≠ "" ∧
    astTypeFromNode exampleLetterName
        ((examplePerson.setChildren [node.mk "b" ⟨nodeTypeBool⟩ [] true "",
            node.mk "a" ⟨nodeTypeString⟩ [] false ""]).setType nodeTypeArrayObject)
      = ast.Expr.ArrayType (ast.Expr.StructType
          [{ Names := [exampleLetterName "a"],
             Type_ := astTypeFromNode exampleLetterName (node.mk "a" ⟨nodeTypeString⟩ [] false ""),
             Tag := astJSONTag "a" (!(node.mk "a" ⟨nodeTypeString⟩ [] false "").required) },
           { Names := [exampleLetterName "b"],
             Type_ := astTypeFromNode exampleLetterName (node.mk "b" ⟨nodeTypeBool⟩ [] true ""),
             Tag := astJSONTag "b" (!(node.mk "b" ⟨nodeTypeBool⟩ [] true "").required) }]) :=
  ⟨rfl, rfl, by decide, by decide,
    (astTypeFromNode_array_object exampleLetterName examplePerson).2.2.2.2 _ _ rfl rfl
      (by decide) (by decide)⟩

/-! ## External references and the fallback -/

/-- C16: a node classified external reference is synthesised as the identifier
`externalTypeID` when this is not empty and as the identifier `attrName key` when it is
empty, the identifier itself when the node is required and the pointer to it when it
is not; the children of the node are not read. -/
theorem astTypeFromNode_external (attrName : String → String) (k : String)
    (cs : List node) (e : String) :
    astTypeFromNode attrName (node.mk k ⟨nodeTypeExternalNode⟩ cs true e)
      = ast.Expr.Ident (if e = "" then attrName k else e) ∧
    astTypeFromNode attrName (node.mk k ⟨nodeTypeExternalNode⟩ cs false e)
      = ast.Expr.StarExpr (ast.Expr.Ident (if e = "" then attrName k else e)) ∧
    astTypeFromNode attrName (node.mk k ⟨nodeTypeExternalNode⟩ cs true "")
      = ast.Expr.Ident (attrName k) ∧
    astTypeFromNode attrName (node.mk k ⟨nodeTypeExternalNode⟩ cs false "")
      = ast.Expr.StarExpr (ast.Expr.Ident (attrName k)) ∧
    (e ≠ "" →
      astTypeFromNode attrName (node.mk k ⟨nodeTypeExternalNode⟩ cs true e)
        = ast.Expr.Ident e ∧
      astTypeFromNode attrName (node.mk k ⟨nodeTypeExternalNode⟩ cs false e)
        = ast.Expr.StarExpr (ast.Expr.Ident e)) := by
  refine ⟨?_, ?_, ?_, ?_, fun he => ⟨?_, ?_⟩⟩ <;> rw [astTypeFromNode] <;>
    simp [node.t, node.required, node.externalTypeID, node.key, *]

/-- Witness for C16: an optional reference to the external type `Widget`, with a child
that is not read. -/
theorem astTypeFromNode_external_witness :
    "Widget" ≠ "" ∧
    astTypeFromNode exampleAttrName
        (node.mk "widget" ⟨nodeTypeExternalNode⟩ [examplePerson] true "Widget")
      = ast.Expr.Ident "Widget" ∧
    astTypeFromNode exampleAttrName
        (node.mk "widget" ⟨nodeTypeExternalNode⟩ [examplePerson] false "Widget")
      = ast.Expr.StarExpr (ast.Expr.Ident "Widget") :=
  ⟨by decide,
    (astTypeFromNode_external exampleAttrName "widget" [examplePerson] "Widget").2.2.2.2
      (by decide)⟩

/-- C17: a node of a classification that no `case` names is synthesised as the empty
interface, not as a pointer, whether it is required or not. -/
theorem astTypeFromNode_fallback (attrName : String → String) (tag : Nat) (k : String)
    (cs : List node) (r : Bool) (e : String) :
    astTypeFromNode attrName (node.mk k ⟨nodeTypeOther tag⟩ cs r e)
      = ast.Expr.InterfaceType 1 2 ∧
    (astTypeFromNode attrName (node.mk k ⟨nodeTypeOther tag⟩ cs r e)).isStarExpr = false := by
  have h : astTypeFromNode attrName (node.mk k ⟨nodeTypeOther tag⟩ cs r e)
      = ast.Expr.InterfaceType 1 2 := by
    rw [astTypeFromNode]
    simp [node.t]
  exact ⟨h, by rw [h]; rfl⟩

/-! ## The worked example -/

/-- C19: when the derivation maps `person`, `age` and `name` to `Person`, `Age` and
`Name`, the single required object root `person` with the required integer child `age`
and the optional string child `name` gives, in both enumeration orders of the children,
exactly one declaration, of `Person`, as the struct of the field `Age` of the integer
type `int` with the tag of `age`, followed by the field `Name` of the type pointer to
`string` with the tag of `name` and `omitempty`. -/
theorem astMakeDecls_person (attrName : String → String)
    (hp : attrName "person" = "Person") (ha : attrName "age" = "Age")
    (hn : attrName "name" = "Name") :
    astMakeDecls attrName [examplePerson]
      = [{ Tok := ast.Token.TYPE,
           Specs := [{ Name := "Person",
                       Type_ := ast.Expr.StructType
                         [{ Names := ["Age"], Type_ := ast.Expr.Ident "int",
                            Tag := { Value := "`json:\"age\"`" } },
                          { Names := ["Name"],
                            Type_ := ast.Expr.StarExpr (ast.Expr.Ident "string"),
                            Tag := { Value := "`json:\"name,omitempty\"`" } }] }] }] ∧
    astMakeDecls attrName [examplePersonReordered] = astMakeDecls attrName [examplePerson] := by
  have hs : astStructTypeFromNode attrName examplePerson
      = ast.Expr.StructType
          [{ Names := ["Age"], Type_ := ast.Expr.Ident "int",
             Tag := { Value := "`json:\"age\"`" } },
           { Names := ["Name"], Type_ := ast.Expr.StarExpr (ast.Expr.Ident "string"),
             Tag := { Value := "`json:\"name,omitempty\"`" } }] := by
    rw [astStructTypeFromNode_eq, sortedNodes_examplePerson]
    simp [fieldOf, astTypeFromNode, astJSONTag, ha, hn, node.key, node.t, node.required]
  have hr : sortedNodes examplePersonReordered = sortedNodes examplePerson := by
    rw [sortedNodes_examplePerson]
    simp [sortedNodes, sortSlice, examplePersonReordered, node.children, node.key,
      show (['a', 'g', 'e'] ≤ ['n', 'a', 'm', 'e']) by decide]
  have hs' : astStructTypeFromNode attrName examplePersonReordered
      = astStructTypeFromNode attrName examplePerson := by
    rw [astStructTypeFromNode_eq, astStructTypeFromNode_eq, hr]
  have ht : astTypeFromNode attrName examplePerson
      = astStructTypeFromNode attrName examplePerson := by
    rw [astTypeFromNode]
    simp [examplePerson, node.t, node.required]
  have ht' : astTypeFromNode attrName examplePersonReordered
      = astStructTypeFromNode attrName examplePersonReordered := by
    rw [astTypeFromNode]
    simp [examplePersonReordered, node.t, node.required]
  have hk : examplePerson.key = "person" := rfl
  have hk' : examplePersonReordered.key = "person" := rfl
  constructor
  · rw [astMakeDecls_eq]
    simp [declOf, hk, hp, ht, hs]
  · rw [astMakeDecls_eq, astMakeDecls_eq]
    simp [declOf, hk, hk', hp, ht, ht', hs']

/-- Witness for C19: the derivation of the examples. -/
theorem astMakeDecls_person_witness :
    exampleAttrName "person" = "Person" ∧ exampleAttrName "age" = "Age" ∧
    exampleAttrName "name" = "Name" ∧
    astMakeDecls exampleAttrName [examplePerson]
      = [{ Tok := ast.Token.TYPE,
           Specs := [{ Name := "Person",
                       Type_ := ast.Expr.StructType
                         [{ Names := ["Age"], Type_ := ast.Expr.Ident "int",
                            Tag := { Value := "`json:\"age\"`" } },
                          { Names := ["Name"],
                            Type_ := ast.Expr.StarExpr (ast.Expr.Ident "string"),
                            Tag := { Value := "`json:\"name,omitempty\"`" } }] }] }] ∧
    astMakeDecls exampleAttrName [examplePersonReordered]
      = astMakeDecls exampleAttrName [examplePerson] :=
  ⟨by decide, by decide, by decide,
    astMakeDecls_person exampleAttrName (by decide) (by decide) (by decide)⟩

/-! ## Totality -/

theorem node.depth_le_depthList {c : node} {cs : List node} (h : c ∈ cs) :
    c.depth ≤ node.depthList cs := by
  induction cs with
  | nil => cases h
  | cons d ds ih =>
    rw [node.depthList]
    rcases List.mem_cons.1 h with rfl | h'
    · exact le_max_left _ _
    · exact le_trans (ih h') (le_max_right _ _)

theorem node.depth_eq (n : node) : n.depth = node.depthList n.children + 1 := by
  cases n; rw [node.depth]; rfl

/-- A loop that appends the results of calls that all succeed never fails. -/
theorem foldl_option_append {α β γ : Type} (p : α → Prop) [DecidablePred p]
    (call : α → Option β) (f : α → β) (g : α → β → γ) (xs : List α)
    (h : ∀ x ∈ xs, ¬ p x → call x = some (f x)) (acc : List γ) :
    xs.foldl (fun acc x => if p x then acc else appendSome acc ((call x).map (g x))) (some acc)
      = some (xs.foldl (fun acc x => if p x then acc else acc ++ [g x (f x)]) acc) := by
  induction xs generalizing acc with
  | nil => rfl
  | cons x xs ih =>
    have ih' := fun acc => ih (fun y hy => h y (List.mem_cons_of_mem _ hy)) acc
    by_cases hp : p x
    · simp only [List.foldl_cons, if_pos hp]
      exact ih' acc
    · simp only [List.foldl_cons, if_neg hp, h x (List.mem_cons_self _ _) hp, Option.map_some',
        appendSome]
      exact ih' _

theorem astStructTypeFromNode_foldl (attrName : String → String) (n : node) :
    astStructTypeFromNode attrName n
      = ast.Expr.StructType ((sortedChildren n).foldl
          (fun list child =>
            if attrName child.key = "" then list
            else list ++ [{ Names := [attrName child.key],
                            Type_ := astTypeFromNode attrName child.node,
                            Tag := astJSONTag child.key (!child.node.required) }]) []) := by
  rw [astStructTypeFromNode]
  congr 1
  exact List.foldl_attach (sortedChildren n)
      (fun (list : List (ast.Field ast.Expr)) (child : nodeWithName) =>
        if attrName child.key = "" then list
        else list ++ [{ Names := [attrName child.key],
                        Type_ := astTypeFromNode attrName child.node,
                        Tag := astJSONTag child.key (!child.node.required) }]) []

theorem astStructTypeFromNodeWith_eq (attrName : String → String)
    (call : node → Option ast.Expr) (n : node)
    (h : ∀ c ∈ n.children, call c = some (astTypeFromNode attrName c)) :
    astStructTypeFromNodeWith attrName call n = some (astStructTypeFromNode attrName n) := by
  rw [astStructTypeFromNode_foldl, astStructTypeFromNodeWith]
  have hc : ∀ x ∈ sortedChildren n, ¬ attrName x.key = "" →
      call x.node = some (astTypeFromNode attrName x.node) := by
    intro x hx _
    rw [sortedChildren_eq] at hx
    obtain ⟨c, hc, rfl⟩ := List.mem_map.1 hx
    exact h c ((sortedNodes_perm n).mem_iff.1 hc)
  have := foldl_option_append (fun x : nodeWithName => attrName x.key = "")
    (fun x => call x.node) (fun x => astTypeFromNode attrName x.node)
    (fun x type => ({ Names := [attrName x.key], Type_ := type,
                      Tag := astJSONTag x.key (!x.node.required) } : ast.Field ast.Expr))
    (sortedChildren n) hc []
  exact (congrArg (Option.map ast.Expr.StructType) this).trans rfl

theorem astTypeFromNodeFuel_eq (attrName : String → String) :
    ∀ (fuel : Nat) (n : node), n.depth ≤ fuel →
      astTypeFromNodeFuel attrName fuel n = some (astTypeFromNode attrName n) := by
  intro fuel
  induction fuel with
  | zero =>
    intro n h
    rw [node.depth_eq] at h
    omega
  | succ fuel ih =>
    intro n h
    have hstruct : astStructTypeFromNodeWith attrName (astTypeFromNodeFuel attrName fuel) n
        = some (astStructTypeFromNode attrName n) := by
      apply astStructTypeFromNodeWith_eq
      intro c hc
      apply ih
      have := node.depth_le_depthList hc
      rw [node.depth_eq] at h
      omega
    rw [astTypeFromNodeFuel, astTypeFromNode, hstruct]
    cases n with
    | mk k t cs r e =>
      obtain ⟨id⟩ := t
      cases id <;> simp [node.t]

/-- One nested call is not enough for the example, whose depth is two: the bound is
what makes a depth-bounded run fail. -/
theorem astTypeFromNodeFuel_examplePerson_one :
    astTypeFromNodeFuel exampleAttrName 1 examplePerson = none := by
  have ht : examplePerson.t.id = nodeTypeObject := rfl
  simp [astTypeFromNodeFuel, astStructTypeFromNodeWith, sortedChildren_eq,
    sortedNodes_examplePerson, ht, node.key, exampleAttrName, appendSome]

/-- C18: `astTypeFromNode`, `astStructTypeFromNode` and `astMakeDecls` are functions
without a failure result, defined by recursion into the children, and a run that
allows as many nested calls of `astTypeFromNode` as the tree is deep never lacks a
call and returns their value, for every classification, flag, key and derivation. -/
theorem synthesis_total (attrName : String → String) (fuel : Nat) (n : node)
    (rootNodes : List node) (hn : n.depth ≤ fuel)
    (hr : node.depthList rootNodes ≤ fuel) :
    astTypeFromNodeFuel attrName fuel n = some (astTypeFromNode attrName n) ∧
    astStructTypeFromNodeWith attrName (astTypeFromNodeFuel attrName fuel) n
      = some (astStructTypeFromNode attrName n) ∧
    astMakeDeclsFuel attrName fuel rootNodes = some (astMakeDecls attrName rootNodes) := by
  refine ⟨astTypeFromNodeFuel_eq attrName fuel n hn, ?_, ?_⟩
  · apply astStructTypeFromNodeWith_eq
    intro c hc
    apply astTypeFromNodeFuel_eq
    have := node.depth_le_depthList hc
    rw [node.depth_eq] at hn
    omega
  · have hc : ∀ x ∈ rootNodes, ¬ attrName x.key = "" →
        astTypeFromNodeFuel attrName fuel x = some (astTypeFromNode attrName x) :=
      fun x hx _ => astTypeFromNodeFuel_eq attrName fuel x
        (le_trans (node.depth_le_depthList hx) hr)
    exact foldl_option_append (fun x : node => attrName x.key = "")
      (astTypeFromNodeFuel attrName fuel) (astTypeFromNode attrName)
      (fun x type => ({ Tok := ast.Token.TYPE,
                        Specs := [{ Name := attrName x.key, Type_ := type }] } : ast.GenDecl))
      rootNodes hc []

/-- Witness for C18: the example, of depth two, run with two nested calls. -/
theorem synthesis_total_witness :
    examplePerson.depth ≤ 2 ∧ node.depthList [examplePerson, examplePersonReordered] ≤ 2 ∧
    astTypeFromNodeFuel exampleAttrName 2 examplePerson
      = some (astTypeFromNode exampleAttrName examplePerson) ∧
    astStructTypeFromNodeWith exampleAttrName (astTypeFromNodeFuel exampleAttrName 2)
        examplePerson
      = some (astStructTypeFromNode exampleAttrName examplePerson) ∧
    astMakeDeclsFuel exampleAttrName 2 [examplePerson, examplePersonReordered]
      = some (astMakeDecls exampleAttrName [examplePerson, examplePersonReordered]) :=
  ⟨by decide, by decide,
    synthesis_total exampleAttrName 2 examplePerson [examplePerson, examplePersonReordered]
      (by decide) (by decide)⟩

/-! ## Identifiers -/

theorem mem_identsOfFields {s : String} {fs : List (ast.Field ast.Expr)} :
    s ∈ ast.Expr.identsOfFields fs ↔ ∃ f ∈ fs, s ∈ f.Names ∨ s ∈ f.Type_.idents := by
  induction fs with
  | nil => simp [ast.Expr.identsOfFields]
  | cons f fs ih =>
    obtain ⟨names, type, tag⟩ := f
    simp [ast.Expr.identsOfFields, ih, or_assoc]

theorem mem_identsOfDecls {s : String} {ds : List ast.GenDecl} :
    s ∈ ast.identsOfDecls ds ↔ ∃ d ∈ ds, s ∈ ast.identsOfSpecs d.Specs := by
  induction ds with
  | nil => simp [ast.identsOfDecls]
  | cons d ds ih => simp [ast.identsOfDecls, ih]

/-- No empty identifier in the type of a node with a non-empty derived identifier, nor
in the struct of any node; by induction on a bound on the size of the node. -/
theorem idents_aux (attrName : String → String) :
    ∀ (N : Nat) (n : node), sizeOf n < N →
      "" ∉ (astStructTypeFromNode attrName n).idents ∧
      (attrName n.key ≠ "" → "" ∉ (astTypeFromNode attrName n).idents) := by
  intro N
  induction N with
  | zero => intro n h; omega
  | succ N ih =>
    intro n hsz
    have hstruct : "" ∉ (astStructTypeFromNode attrName n).idents := by
      rw [astStructTypeFromNode_eq, ast.Expr.idents, mem_identsOfFields]
      rintro ⟨f, hf, hmem⟩
      obtain ⟨c, hc, rfl⟩ := List.mem_map.1 hf
      have hne : ¬ attrName c.key = "" := by simpa using (List.mem_filter.1 hc).2
      have hcn : c ∈ n.children := (sortedNodes_perm n).mem_iff.1 (List.mem_filter.1 hc).1
      have hlt : sizeOf c < N := by
        cases n with
        | mk k t cs r e =>
          have := List.sizeOf_lt_of_mem hcn
          simp only [node.children] at this
          simp only [node.mk.sizeOf_spec] at hsz
          omega
      rcases hmem with h | h
      · simp only [fieldOf, List.mem_singleton] at h
        exact hne h.symm
      · exact (ih c hlt).2 hne h
    refine ⟨hstruct, fun hkey => ?_⟩
    rw [astTypeFromNode]
    cases n with
    | mk k t cs r e =>
      obtain ⟨id⟩ := t
      simp only [node.key] at hkey
      cases id <;> cases r <;>
        simp [node.t, node.required, node.externalTypeID, node.key, ast.Expr.idents] <;>
        first
          | exact hstruct
          | (split_ifs with he
             · exact fun h => hkey h.symm
             · exact fun h => he h.symm)

/-- C20: no identifier that occurs in the declarations of `astMakeDecls`, a declared
name, a field name at any depth, the name of a primitive type or of an external
reference, is empty, for every list of roots and every derivation: a node is
synthesised only after its derived identifier was found not empty, and this is the
identifier that an external reference without `externalTypeID` uses. -/
theorem astMakeDecls_no_empty_identifier (attrName : String → String)
    (rootNodes : List node) :
    "" ∉ ast.identsOfDecls (astMakeDecls attrName rootNodes) := by
  rw [astMakeDecls_eq, mem_identsOfDecls]
  rintro ⟨d, hd, hmem⟩
  obtain ⟨r, hr, rfl⟩ := List.mem_map.1 hd
  have hne : ¬ attrName r.key = "" := by simpa using (List.mem_filter.1 hr).2
  simp only [declOf, ast.identsOfSpecs, List.append_nil, List.mem_cons] at hmem
  rcases hmem with h | h
  · exact hne h.symm
  · exact (idents_aux attrName (sizeOf r + 1) r (Nat.lt_succ_self _)).2 hne h

end Json2go
